import Mathlib

/-!
Verification of the fractyl snapshot engine core against its specification.

The C sources are shallowly embedded: C byte buffers and C strings become
lists of byte values (natural numbers below 256), fixed-width little-endian
integer fields become explicit encode and decode functions over byte lists,
and every fallible operation returns an Except value mirroring the C error
returns.  SHA-256 itself is delegated by the source to OpenSSL, so the
embedding takes the hash as an explicit function parameter wherever the code
calls it.
-/

namespace Fractyl

/-- A byte value; the embedding keeps bytes as naturals below 256. -/
abbrev Byte := Nat

/-- A byte buffer or C string (the bytes before the terminating NUL). -/
abbrev ByteStr := List Nat

/-- A 32-byte SHA-256 digest as produced by hash_file and hash_data. -/
abbrev Digest := List Nat

/-- Error codes of the fractyl core, one constructor per FRACTYL_ERROR_
macro that the embedded code returns (fractyl.h itself ships with the
sources only as an include; the macros are distinct codes). FRACTYL_OK is
represented by Except.ok. -/
inductive FracError where
  | generic
  | io
  | outOfMemory
  | invalidArgs
  | snapshotNotFound
  | indexNotFound
  | notFound
deriving DecidableEq, Repr

/-- Little-endian encoding of the low w bytes of n, as written by fwrite of
a w-byte integer field on a little-endian host. -/
def toLE : Nat → Nat → List Nat
  | 0, _ => []
  | w + 1, n => n % 256 :: toLE w (n / 256)

/-- Little-endian decoding of a byte list, as read by fread into a w-byte
integer field on a little-endian host. -/
def fromLE : List Nat → Nat
  | [] => 0
  | b :: bs => b % 256 + 256 * fromLE bs

theorem toLE_length (w n : Nat) : (toLE w n).length = w := by
  induction w generalizing n with
  | zero => rfl
  | succ w ih => simp [toLE, ih]

theorem fromLE_toLE (w n : Nat) : fromLE (toLE w n) = n % 256 ^ w := by
  induction w generalizing n with
  | zero => simp [toLE, fromLE, Nat.mod_one]
  | succ w ih =>
      simp only [toLE, fromLE, ih]
      have hdvd : (256 : Nat) ∣ 256 ^ (w + 1) := dvd_pow_self 256 (Nat.succ_ne_zero w)
      have h1 : n % 256 = n % 256 ^ (w + 1) % 256 := (Nat.mod_mod_of_dvd n hdvd).symm
      have h2 : n / 256 % 256 ^ w = n % 256 ^ (w + 1) / 256 := by
        rw [← Nat.mod_mul_right_div_self, ← pow_succ']
      rw [h1, h2]
      omega

/-- Read exactly k bytes from the front of a stream, as a successful fread
of k bytes; fails when fewer than k bytes remain. -/
def readBytes (k : Nat) (bs : List Nat) : Option (List Nat × List Nat) :=
  if k ≤ bs.length then some (bs.take k, bs.drop k) else none

theorem readBytes_append (xs rest : List Nat) :
    readBytes xs.length (xs ++ rest) = some (xs, rest) := by
  simp [readBytes, List.take_left, List.drop_left]

/-! ## Persistent stat cache (src/utils/binary_index.c)

The cache file has a packed 40-byte header followed by packed 72-byte
entry records and then the variable-length path bytes.  The in-memory
structure additionally carries a chaining hash table keyed by path; the
table only accelerates lookup (chains compare the full path with strcmp),
so lookups are embedded as a first-match search over the stored
path and entry arrays. -/

/-- Header signature 0x46524143 ("FRAC"), BINARY_INDEX_SIGNATURE. -/
def binarySignature : Nat := 0x46524143

/-- BINARY_INDEX_VERSION. -/
def binaryVersion : Nat := 1

/-- MAX_PATH_LENGTH from binary_index.h. -/
def maxPathLength : Nat := 1024

/-- binary_index_header_t: packed 40-byte cache file header (four u32
fields, the 16-byte branch name, then the u64 timestamp). -/
structure BinHeader where
  signature : Nat
  version : Nat
  entryCount : Nat
  checksum : Nat
  branch : List Nat
  timestamp : Nat
deriving DecidableEq, Repr

/-- binary_index_entry_t: packed 72-byte cache record.  All integer fields
are the stored fixed-width values (u32 or u64); hash holds the first 20
bytes of the file's SHA-256. -/
structure BinEntry where
  mtimeSec : Nat
  mtimeNsec : Nat
  ctimeSec : Nat
  ctimeNsec : Nat
  size : Nat
  inode : Nat
  dev : Nat
  mode : Nat
  uid : Nat
  gid : Nat
  hash : List Nat
  pathLength : Nat
  flags : Nat
deriving DecidableEq, Repr

/-- binary_index_t: the in-memory cache. paths[i] is none where the C
loader left a NULL path (path length out of range or a short read). -/
structure BinaryIndex where
  header : BinHeader
  entries : List BinEntry
  paths : List (Option (List Nat))
deriving DecidableEq, Repr

/-- The relevant fields of a struct stat for change detection.  mtime is
st_mtime (time_t), size is st_size (off_t, non-negative for regular
files), ino is st_ino, mode is st_mode (a u32 on this target). -/
structure StatBuf where
  mtime : Nat
  size : Nat
  ino : Nat
  mode : Nat
deriving DecidableEq, Repr

/-- binary_file_status_t. -/
inductive BinaryFileStatus where
  | unchanged
  | changed
  | newFile
  | deleted
deriving DecidableEq, Repr

/-- strncpy of the branch name into the 16-byte zero-initialized header
field, copying at most 15 bytes (binary_index_init). -/
def branchField (branch : List Nat) : List Nat :=
  branch.take 15 ++ List.replicate (16 - min branch.length 15) 0

/-- binary_index_init: a freshly initialized empty cache for a branch.
now is the time(NULL) value observed during initialization. -/
def binary_index_init (branch : List Nat) (now : Nat) : BinaryIndex where
  header :=
    { signature := binarySignature
      version := binaryVersion
      entryCount := 0
      checksum := 0
      branch := branchField branch
      timestamp := now }
  entries := []
  paths := []

/-- binary_index_find_entry: the entry whose stored path equals the query
path, if any (the C hash table compares candidate paths with strcmp, so
the result is exactly a stored entry with an equal path). -/
def binary_index_find_entry (idx : BinaryIndex) (path : List Nat) :
    Option BinEntry :=
  ((idx.paths.zip idx.entries).find? fun pe => pe.1 = some path).map Prod.snd

/-- The comparison binary_index_check_file performs between a cache entry
and the current stat, after the C casts: st_mtime is cast to uint32_t,
st_size and st_ino to uint64_t, and mode is compared as u32. -/
def statMatches (e : BinEntry) (st : StatBuf) : Prop :=
  e.mtimeSec = st.mtime % 2 ^ 32 ∧ e.size = st.size % 2 ^ 64 ∧
    e.inode = st.ino % 2 ^ 64 ∧ e.mode = st.mode

instance (e : BinEntry) (st : StatBuf) : Decidable (statMatches e st) := by
  unfold statMatches; infer_instance

/-- binary_index_check_file: classify a path given its current stat. -/
def binary_index_check_file (idx : BinaryIndex) (path : List Nat)
    (st : StatBuf) : BinaryFileStatus :=
  match binary_index_find_entry idx path with
  | none => BinaryFileStatus.newFile
  | some e =>
      if statMatches e st then BinaryFileStatus.unchanged
      else BinaryFileStatus.changed

/-- Parse one packed 72-byte entry record (ten u32/u64 stat fields, the
20-byte digest, then two u16 fields).  The caller guarantees 72 bytes
are available. -/
def parseBinEntry (bs : List Nat) : BinEntry × List Nat :=
  let ms := fromLE (bs.take 4)
  let bs := bs.drop 4
  let mn := fromLE (bs.take 4)
  let bs := bs.drop 4
  let cs := fromLE (bs.take 4)
  let bs := bs.drop 4
  let cn := fromLE (bs.take 4)
  let bs := bs.drop 4
  let sz := fromLE (bs.take 8)
  let bs := bs.drop 8
  let ino := fromLE (bs.take 8)
  let bs := bs.drop 8
  let dv := fromLE (bs.take 4)
  let bs := bs.drop 4
  let md := fromLE (bs.take 4)
  let bs := bs.drop 4
  let uid := fromLE (bs.take 4)
  let bs := bs.drop 4
  let gid := fromLE (bs.take 4)
  let bs := bs.drop 4
  let h := bs.take 20
  let bs := bs.drop 20
  let pl := fromLE (bs.take 2)
  let bs := bs.drop 2
  let fl := fromLE (bs.take 2)
  let bs := bs.drop 2
  (⟨ms, mn, cs, cn, sz, ino, dv, md, uid, gid, h, pl, fl⟩, bs)

/-- Parse count packed entry records. -/
def parseBinEntries : Nat → List Nat → List BinEntry × List Nat
  | 0, bs => ([], bs)
  | n + 1, bs =>
      let (e, rest) := parseBinEntry bs
      let (es, rest2) := parseBinEntries n rest
      (e :: es, rest2)

/-- Read the path bytes for one entry as binary_index_load does: nothing
is read when the recorded length is 0 or at least MAX_PATH_LENGTH (the
path stays NULL); a read that cannot deliver the full length consumes
what remains and leaves the path NULL. -/
def readBinPath (pl : Nat) (bs : List Nat) : Option (List Nat) × List Nat :=
  if 0 < pl ∧ pl < maxPathLength then
    match readBytes pl bs with
    | some (p, rest) => (some p, rest)
    | none => (none, [])
  else (none, bs)

/-- Read the path section for a list of entries, in entry order. -/
def readBinPaths : List BinEntry → List Nat → List (Option (List Nat))
  | [], _ => []
  | e :: es, bs =>
      let (p, rest) := readBinPath e.pathLength bs
      p :: readBinPaths es rest

/-- Parse the packed 40-byte header.  The caller guarantees 40 bytes:
signature, version, entry_count and checksum are the four leading u32
fields, branch the 16 bytes at offset 16, timestamp the u64 at offset
32. -/
def parseBinHeader (bs : List Nat) : BinHeader :=
  { signature := fromLE (bs.take 4)
    version := fromLE ((bs.drop 4).take 4)
    entryCount := fromLE ((bs.drop 8).take 4)
    checksum := fromLE ((bs.drop 12).take 4)
    branch := (bs.drop 16).take 16
    timestamp := fromLE ((bs.drop 32).take 8) }

/-- binary_index_load over the bytes of the cache file.  file is none when
open fails (no cache file); fstatOk models the fstat call on an opened
file.  Allocation failures (FRACTYL_ERROR_OUT_OF_MEMORY) are outside this
pure embedding, and a NULL index or branch argument
(FRACTYL_ERROR_INVALID_ARGS) cannot be expressed since the arguments are
values.  Every malformed file shape reinitializes an empty cache for the
requested branch and succeeds, exactly as the C does. -/
def binary_index_load (branch : List Nat) (now : Nat)
    (file : Option (List Nat)) (fstatOk : Bool) :
    Except FracError BinaryIndex :=
  match file with
  | none => Except.ok (binary_index_init branch now)
  | some bs =>
      if ¬fstatOk then Except.error FracError.io
      else if bs.length < 40 then Except.ok (binary_index_init branch now)
      else
        let hdr := parseBinHeader (bs.take 40)
        let rest := bs.drop 40
        if hdr.signature ≠ binarySignature ∨ hdr.version ≠ binaryVersion then
          Except.ok (binary_index_init branch now)
        else if hdr.entryCount = 0 then
          Except.ok ⟨hdr, [], []⟩
        else if rest.length < 72 * hdr.entryCount then
          Except.ok (binary_index_init branch now)
        else
          let (es, pathBytes) := parseBinEntries hdr.entryCount rest
          Except.ok ⟨hdr, es, readBinPaths es pathBytes⟩

/-! ## Content-addressed object store (src/core/objects.c)

hash_file and hash_data delegate to OpenSSL SHA-256, so the hash is a
function parameter sha of the embedded operations.  The store itself is
the set of object files under objects/, keyed by digest; object file
contents are carried so content-addressing is provable. -/

/-- ASCII byte of the lowercase hex digit for n < 16, as produced by
sprintf %02x. -/
def hexDigitByte (n : Nat) : Nat :=
  if n < 10 then 48 + n else 87 + n

/-- The two lowercase hex bytes sprintf %02x prints for one byte. -/
def byteToHex (b : Nat) : List Nat :=
  [hexDigitByte (b % 256 / 16), hexDigitByte (b % 16)]

/-- hash_to_string: the 64 lowercase hex bytes of a 32-byte digest. -/
def hash_to_string (h : Digest) : List Nat :=
  (h.map byteToHex).flatten

/-- The byte 0x2f, the path separator. -/
def slashByte : Nat := 47

/-- The bytes of the string "/objects/". -/
def objectsSegment : List Nat := [47, 111, 98, 106, 101, 99, 116, 115, 47]

/-- hash_to_object_path: fractyl_dir/objects/XX/XXXX... where XX is the
first two hex bytes of the digest and the rest follows the slash. -/
def hash_to_object_path (fractylDir : List Nat) (h : Digest) : List Nat :=
  fractylDir ++ objectsSegment ++ (hash_to_string h).take 2 ++ [slashByte] ++
    (hash_to_string h).drop 2

/-- The object store: an association of digests to the stored object file
bodies, one per object file under objects/. -/
structure ObjectStore where
  objects : List (Digest × List Nat)
deriving DecidableEq, Repr

/-- object_exists: the filesystem probe for the object file of a digest. -/
def object_exists (s : ObjectStore) (d : Digest) : Bool :=
  (s.objects.find? fun p => p.1 = d).isSome

/-- object_store_file: hash the source file's content, succeed at once if
the object exists, otherwise copy the content to the object path; a
failing write removes the partial file, leaving the store unchanged.
writeOk models whether the copy I/O succeeds.  Returns the result paired
with the store after the call. -/
def object_store_file (sha : List Nat → Digest) (writeOk : Bool)
    (s : ObjectStore) (content : List Nat) :
    Except FracError Digest × ObjectStore :=
  let d := sha content
  if object_exists s d then (Except.ok d, s)
  else if writeOk then (Except.ok d, ⟨(d, content) :: s.objects⟩)
  else (Except.error FracError.io, s)

/-- object_store_data: the same contract from an in-memory buffer. -/
def object_store_data (sha : List Nat → Digest) (writeOk : Bool)
    (s : ObjectStore) (data : List Nat) :
    Except FracError Digest × ObjectStore :=
  let d := sha data
  if object_exists s d then (Except.ok d, s)
  else if writeOk then (Except.ok d, ⟨(d, data) :: s.objects⟩)
  else (Except.error FracError.io, s)

/-- The store operations that write to the object store; no core
operation ever modifies or removes an existing object file. -/
inductive StoreOp where
  | putFile (content : List Nat) (writeOk : Bool)
  | putData (data : List Nat) (writeOk : Bool)
deriving DecidableEq, Repr

/-- Apply one store operation, keeping the resulting store. -/
def applyStoreOp (sha : List Nat → Digest) (s : ObjectStore) :
    StoreOp → ObjectStore
  | StoreOp.putFile c w => (object_store_file sha w s c).2
  | StoreOp.putData c w => (object_store_data sha w s c).2

/-- Run a sequence of store operations from a starting store. -/
def runStoreOps (sha : List Nat → Digest) (s : ObjectStore)
    (ops : List StoreOp) : ObjectStore :=
  ops.foldl (applyStoreOp sha) s

/-- Content-address integrity of a store state: every stored object's
bytes hash to its key. -/
def contentAddressed (sha : List Nat → Digest) (s : ObjectStore) : Prop :=
  ∀ p ∈ s.objects, sha p.2 = p.1

/-- A byte is a lowercase hex character (0-9 or a-f). -/
def isLowerHexByte (b : Nat) : Prop :=
  (48 ≤ b ∧ b ≤ 57) ∨ (97 ≤ b ∧ b ≤ 102)

instance (b : Nat) : Decidable (isLowerHexByte b) := by
  unfold isLowerHexByte; infer_instance

theorem hexDigitByte_lower (n : Nat) (h : n < 16) :
    isLowerHexByte (hexDigitByte n) := by
  unfold isLowerHexByte hexDigitByte
  split <;> omega

theorem byteToHex_lower (b : Nat) : ∀ c ∈ byteToHex b, isLowerHexByte c := by
  intro c hc
  simp only [byteToHex, List.mem_cons, List.mem_singleton] at hc
  rcases hc with h | h | h
  · exact h ▸ hexDigitByte_lower _ (by omega)
  · exact h ▸ hexDigitByte_lower _ (Nat.mod_lt _ (by omega))
  · cases h

theorem hash_to_string_length_eq (h : Digest) :
    (hash_to_string h).length = 2 * h.length := by
  unfold hash_to_string
  induction h with
  | nil => rfl
  | cons b t ih =>
      simp only [List.map_cons, List.flatten_cons, List.length_append, ih,
        List.length_cons, byteToHex, List.length_cons, List.length_nil]
      omega

theorem hash_to_string_length (h : Digest) (hl : h.length = 32) :
    (hash_to_string h).length = 64 := by
  rw [hash_to_string_length_eq, hl]

theorem hash_to_string_lower (h : Digest) :
    ∀ c ∈ hash_to_string h, isLowerHexByte c := by
  intro c hc
  unfold hash_to_string at hc
  rw [List.mem_flatten] at hc
  obtain ⟨l, hl, hcl⟩ := hc
  rw [List.mem_map] at hl
  obtain ⟨b, _, rfl⟩ := hl
  exact byteToHex_lower b c hcl

/-! ## Working-tree index and its binary codec (src/core/index.c)

The on-disk format is the FIDX header followed by packed entries.  The
native field widths on the embedded target are mode_t 4 bytes, off_t 8
bytes, time_t 8 bytes, little-endian. -/

/-- index_entry_t.  path holds the bytes of the NUL-terminated C string
(no interior zero byte); hash is the full 32-byte digest. -/
structure IndexEntry where
  path : List Nat
  hash : Digest
  mode : Nat
  size : Nat
  mtime : Nat
deriving DecidableEq, Repr

/-- index_find_entry: first entry whose path compares equal (strcmp). -/
def index_find_entry (idx : List IndexEntry) (path : List Nat) :
    Option IndexEntry :=
  idx.find? fun e => e.path = path

/-- Modelled from the spec: index_add_entry_direct is declared in
src/core/index.h and called by the scanner, but its definition is not
among the sources; the spec describes it as the append-only variant of
add_entry, used when the caller guarantees no duplicate paths.  It
appends the (deep-copied) entry at the end of the index. -/
def index_add_entry_direct (idx : List IndexEntry) (e : IndexEntry) :
    List IndexEntry :=
  idx ++ [e]

/-- The bytes "FIDX". -/
def fidxMagic : List Nat := [70, 73, 68, 88]

/-- The bytes index_save writes for one entry: u16 path length, the path
bytes, the 32 digest bytes, then mode, size and mtime at native widths. -/
def serializeEntry (e : IndexEntry) : List Nat :=
  toLE 2 e.path.length ++ e.path ++ e.hash ++ toLE 4 e.mode ++
    toLE 8 e.size ++ toLE 8 e.mtime

/-- index_save: the full file image for an index (header "FIDX",
version 1, entry count, then the entries in order).  Entries with a NULL
path, which index_save skips, cannot arise in the embedding since path
is a value. -/
def index_save (entries : List IndexEntry) : List Nat :=
  fidxMagic ++ toLE 4 1 ++ toLE 4 entries.length ++
    (entries.map serializeEntry).flatten

/-- Parse one entry as index_load reads it: a short read is
FRACTYL_ERROR_IO; a path length of 0 or above 4096 is
FRACTYL_ERROR_GENERIC. -/
def parseIndexEntry (bs : List Nat) :
    Except FracError (IndexEntry × List Nat) :=
  match readBytes 2 bs with
  | none => Except.error FracError.io
  | some (lenB, bs1) =>
      let plen := fromLE lenB
      if plen = 0 ∨ plen > 4096 then Except.error FracError.generic
      else
        match readBytes plen bs1 with
        | none => Except.error FracError.io
        | some (p, bs2) =>
            match readBytes 32 bs2 with
            | none => Except.error FracError.io
            | some (h, bs3) =>
                match readBytes 4 bs3 with
                | none => Except.error FracError.io
                | some (modeB, bs4) =>
                    match readBytes 8 bs4 with
                    | none => Except.error FracError.io
                    | some (sizeB, bs5) =>
                        match readBytes 8 bs5 with
                        | none => Except.error FracError.io
                        | some (mtimeB, bs6) =>
                            Except.ok
                              (⟨p, h, fromLE modeB, fromLE sizeB,
                                fromLE mtimeB⟩, bs6)

/-- Parse count entries in sequence. -/
def parseIndexEntries :
    Nat → List Nat → Except FracError (List IndexEntry × List Nat)
  | 0, bs => Except.ok ([], bs)
  | n + 1, bs =>
      match parseIndexEntry bs with
      | Except.error e => Except.error e
      | Except.ok (e, rest) =>
          match parseIndexEntries n rest with
          | Except.error er => Except.error er
          | Except.ok (es, rest2) => Except.ok (e :: es, rest2)

/-- index_load over the bytes of an index file.  A missing file (ENOENT)
yields the empty index; a wrong magic or version is
FRACTYL_ERROR_GENERIC; short reads are FRACTYL_ERROR_IO.  Trailing bytes
after the recorded entries are ignored, as in the C. -/
def index_load (file : Option (List Nat)) :
    Except FracError (List IndexEntry) :=
  match file with
  | none => Except.ok []
  | some bs =>
      match readBytes 4 bs with
      | none => Except.error FracError.io
      | some (magic, bs1) =>
          if magic ≠ fidxMagic then Except.error FracError.generic
          else
            match readBytes 4 bs1 with
            | none => Except.error FracError.io
            | some (verB, bs2) =>
                match readBytes 4 bs2 with
                | none => Except.error FracError.io
                | some (cntB, bs3) =>
                    if fromLE verB ≠ 1 then Except.error FracError.generic
                    else if fromLE cntB = 0 then Except.ok []
                    else
                      match parseIndexEntries (fromLE cntB) bs3 with
                      | Except.error e => Except.error e
                      | Except.ok (es, _) => Except.ok es

/-- A well-formed index entry for the codec: the path is non-empty with
at most 4096 bytes, the digest is 32 bytes, and the integer fields fit
their native widths. -/
def wfEntry (e : IndexEntry) : Prop :=
  0 < e.path.length ∧ e.path.length ≤ 4096 ∧ e.hash.length = 32 ∧
    e.mode < 2 ^ 32 ∧ e.size < 2 ^ 64 ∧ e.mtime < 2 ^ 64

instance (e : IndexEntry) : Decidable (wfEntry e) := by
  unfold wfEntry; infer_instance

theorem parseIndexEntry_serializeEntry (e : IndexEntry) (rest : List Nat)
    (he : wfEntry e) :
    parseIndexEntry (serializeEntry e ++ rest) = Except.ok (e, rest) := by
  obtain ⟨h1, h2, h3, h4, h5, h6⟩ := he
  unfold serializeEntry parseIndexEntry
  have e2 : toLE 2 e.path.length ++ e.path ++ e.hash ++ toLE 4 e.mode ++
      toLE 8 e.size ++ toLE 8 e.mtime ++ rest =
      toLE 2 e.path.length ++ (e.path ++ (e.hash ++ (toLE 4 e.mode ++
        (toLE 8 e.size ++ (toLE 8 e.mtime ++ rest))))) := by
    simp [List.append_assoc]
  rw [List.append_assoc, List.append_assoc, List.append_assoc,
    List.append_assoc, List.append_assoc]
  have r1 := readBytes_append (toLE 2 e.path.length)
    (e.path ++ (e.hash ++ (toLE 4 e.mode ++ (toLE 8 e.size ++
      (toLE 8 e.mtime ++ rest)))))
  rw [toLE_length] at r1
  have hlen : fromLE (toLE 2 e.path.length) = e.path.length := by
    rw [fromLE_toLE]
    exact Nat.mod_eq_of_lt (by norm_num; omega)
  have hc : ¬(e.path.length = 0 ∨ e.path.length > 4096) := by omega
  have r3 := readBytes_append e.hash
    (toLE 4 e.mode ++ (toLE 8 e.size ++ (toLE 8 e.mtime ++ rest)))
  rw [h3] at r3
  have r4 := readBytes_append (toLE 4 e.mode)
    (toLE 8 e.size ++ (toLE 8 e.mtime ++ rest))
  rw [toLE_length] at r4
  have r5 := readBytes_append (toLE 8 e.size) (toLE 8 e.mtime ++ rest)
  rw [toLE_length] at r5
  have r6 := readBytes_append (toLE 8 e.mtime) rest
  rw [toLE_length] at r6
  have hm : fromLE (toLE 4 e.mode) = e.mode := by
    rw [fromLE_toLE]; exact Nat.mod_eq_of_lt (by norm_num at h4 ⊢; omega)
  have hs : fromLE (toLE 8 e.size) = e.size := by
    rw [fromLE_toLE]; exact Nat.mod_eq_of_lt (by norm_num at h5 ⊢; omega)
  have ht : fromLE (toLE 8 e.mtime) = e.mtime := by
    rw [fromLE_toLE]; exact Nat.mod_eq_of_lt (by norm_num at h6 ⊢; omega)
  simp only [r1, hlen, hc, if_false, readBytes_append e.path, r3, r4, r5,
    r6, hm, hs, ht, ite_false]

theorem parseIndexEntries_serialize (es : List IndexEntry)
    (rest : List Nat) (he : ∀ e ∈ es, wfEntry e) :
    parseIndexEntries es.length ((es.map serializeEntry).flatten ++ rest) =
      Except.ok (es, rest) := by
  induction es generalizing rest with
  | nil => rfl
  | cons e t ih =>
      simp only [List.map_cons, List.flatten_cons, List.length_cons,
        List.append_assoc]
      unfold parseIndexEntries
      simp only [parseIndexEntry_serializeEntry e _
          (he e (List.mem_cons_self e t)),
        ih rest fun x hx => he x (List.mem_cons_of_mem e hx)]

/-! ## Scanner (src/utils/parallel_scan.c)

Two embedded fragments: process_file, the per-file body of the full
traversal, and the per-file body of the stat-only processing loop of
scan_directory_stat_only.  Both receive the current stat, the prior
index, the file content (consumed only when hashing is needed) and the
object store. -/

/-- FRACTYL's large-file limit, 1 GiB. -/
def largeFileLimit : Nat := 1024 * 1024 * 1024

/-- Outcome of process_file for one regular file. -/
inductive FileOutcome where
  | skipped
  | added (e : IndexEntry) (fileChanged : Bool)
deriving DecidableEq, Repr

/-- process_file: skip files above 1 GiB; when the prior index has an
entry for the path with equal size and mtime, reuse its digest verbatim
and report the file unchanged; otherwise hash and store the body, and
report it unchanged exactly when the fresh digest equals the prior one.
A store failure skips the file with a warning. -/
def process_file (sha : List Nat → Digest) (writeOk : Bool)
    (prevIndex : List IndexEntry) (relPath : List Nat) (st : StatBuf)
    (content : List Nat) (store : ObjectStore) :
    FileOutcome × ObjectStore :=
  if st.size > largeFileLimit then (FileOutcome.skipped, store)
  else
    let prev := index_find_entry prevIndex relPath
    match prev with
    | some pe =>
        if pe.size = st.size ∧ pe.mtime = st.mtime then
          (FileOutcome.added
            ⟨relPath, pe.hash, st.mode, st.size, st.mtime⟩ false, store)
        else
          match object_store_file sha writeOk store content with
          | (Except.error _, st2) => (FileOutcome.skipped, st2)
          | (Except.ok d, st2) =>
              (FileOutcome.added ⟨relPath, d, st.mode, st.size, st.mtime⟩
                (decide ¬(pe.hash = d)), st2)
    | none =>
        match object_store_file sha writeOk store content with
        | (Except.error _, st2) => (FileOutcome.skipped, st2)
        | (Except.ok d, st2) =>
            (FileOutcome.added ⟨relPath, d, st.mode, st.size, st.mtime⟩
              true, st2)

/-- Lookup in the path-keyed hash table that scan_directory_stat_only
builds over the prior index; chains compare the full path, so the result
is the prior entry with an equal path. -/
def prevHashLookup (prevIndex : List IndexEntry) (path : List Nat) :
    Option IndexEntry :=
  index_find_entry prevIndex path

/-- Outcome of one iteration of the stat-only result loop. -/
inductive StatOnlyOutcome where
  | deleted
  | appendedUnchanged (e : IndexEntry)
  | appendedChanged (e : IndexEntry)
  | skipped
deriving DecidableEq, Repr

/-- The per-file body of the stat-only processing loop: a failed lstat or
a non-regular result drops the path as deleted; an unchanged
classification with a prior-index entry appends that entry verbatim;
otherwise the file is hashed into the store and appended as changed; a
store failure skips the file. -/
def stat_only_step (sha : List Nat → Digest) (writeOk : Bool)
    (binIdx : BinaryIndex) (prevIndex : List IndexEntry)
    (relPath : List Nat) (statRes : Option StatBuf) (isReg : Bool)
    (content : List Nat) (store : ObjectStore) :
    StatOnlyOutcome × ObjectStore :=
  match statRes with
  | none => (StatOnlyOutcome.deleted, store)
  | some st =>
      if ¬isReg then (StatOnlyOutcome.deleted, store)
      else
        let status := binary_index_check_file binIdx relPath st
        let hashAndAppend : StatOnlyOutcome × ObjectStore :=
          match object_store_file sha writeOk store content with
          | (Except.error _, st2) => (StatOnlyOutcome.skipped, st2)
          | (Except.ok d, st2) =>
              (StatOnlyOutcome.appendedChanged
                ⟨relPath, d, st.mode, st.size, st.mtime⟩, st2)
        match status with
        | BinaryFileStatus.unchanged =>
            match prevHashLookup prevIndex relPath with
            | some pe => (StatOnlyOutcome.appendedUnchanged pe, store)
            | none => hashAndAppend
        | BinaryFileStatus.changed => hashAndAppend
        | _ => (StatOnlyOutcome.skipped, store)

/-! ## Restore engine (src/commands/restore.c)

The working tree is a partial map from relative paths to file contents.
cmd_restore, after resolving the snapshot and loading its index, loops
over the index entries and materializes each one from the object store
(object_restore_file opens the object first, so a missing object leaves
the destination untouched and the loop continues with a warning), then
rewrites the live index file and CURRENT.  The loop is the complete
effect of cmd_restore on working-tree files. -/

/-- The working tree as a map from path bytes to file content. -/
def Worktree := List Nat → Option (List Nat)

/-- storage lookup by digest: the body of the object file, if present. -/
def object_load (s : ObjectStore) (d : Digest) : Option (List Nat) :=
  ((s.objects.find? fun p => p.1 = d).map Prod.snd)

/-- The effect of cmd_restore's entry loop on the working tree: each
entry whose object is present overwrites its path with the object body;
nothing else in the working tree is touched, and no path is removed. -/
def cmd_restore_worktree (store : ObjectStore) (idx : List IndexEntry)
    (wt : Worktree) : Worktree :=
  idx.foldl
    (fun w e =>
      match object_load store e.hash with
      | some c => fun p => if p = e.path then some c else w p
      | none => w)
    wt

/-! ## Snapshot committer (src/commands/snapshot.c)

The commit is embedded as the trace of its durable writes, in program
order: the object-store puts issued by the scanner, the rewrite of the
live index file, the object-store put of the serialized index, the
snapshot record write, and finally the CURRENT rewrite.  Each later step
is only reached when every earlier step succeeded, which the boolean
step switches model; a crash at any point truncates the trace. -/

/-- One durable write of a snapshot commit. -/
inductive CommitEvent where
  | putObject (d : Digest)
  | writeLiveIndex
  | putIndexObject (d : Digest)
  | writeRecord (id : List Nat) (indexDigest : Digest)
  | writeCurrent (id : List Nat)
deriving DecidableEq, Repr

/-- The write trace of a fully successful commit: scanner object puts,
live index save, index object put, record write, CURRENT write. -/
def fullCommitTrace (scanPuts : List Digest) (d : Digest)
    (id : List Nat) : List CommitEvent :=
  scanPuts.map CommitEvent.putObject ++
    [CommitEvent.writeLiveIndex, CommitEvent.putIndexObject d,
      CommitEvent.writeRecord id d, CommitEvent.writeCurrent id]

/-- The write trace of cmd_snapshot.  scanOk is the scan result; changes
is the change-detection verdict (no changes exits before any commit
write); liveOk is the live index_save; tempOk covers id generation and
the temporary index file; storeIndexOk the object_store_file of the
index; recordOk the json_save_snapshot; currentOk the CURRENT fopen and
write.  d is the digest of the serialized index, id the fresh snapshot
id. -/
def cmd_snapshot_trace (scanPuts : List Digest)
    (scanOk changes liveOk tempOk storeIndexOk recordOk currentOk : Bool)
    (d : Digest) (id : List Nat) : List CommitEvent :=
  let base := scanPuts.map CommitEvent.putObject
  if ¬scanOk then base
  else if ¬changes then base
  else if ¬liveOk then base
  else if ¬tempOk then base ++ [CommitEvent.writeLiveIndex]
  else if ¬storeIndexOk then base ++ [CommitEvent.writeLiveIndex]
  else if ¬recordOk then
    base ++ [CommitEvent.writeLiveIndex, CommitEvent.putIndexObject d]
  else if ¬currentOk then
    base ++ [CommitEvent.writeLiveIndex, CommitEvent.putIndexObject d,
      CommitEvent.writeRecord id d]
  else fullCommitTrace scanPuts d id

/-- The durable repository state affected by a commit: the set of object
digests present in the store, the snapshot records (id and the index
digest each references), and the CURRENT pointer of the branch. -/
structure RepoFs where
  storeKeys : List Digest
  records : List (List Nat × Digest)
  currentRef : Option (List Nat)
deriving DecidableEq, Repr

/-- Apply one commit write to the repository state. -/
def applyEvent (fs : RepoFs) : CommitEvent → RepoFs
  | CommitEvent.putObject d => { fs with storeKeys := d :: fs.storeKeys }
  | CommitEvent.writeLiveIndex => fs
  | CommitEvent.putIndexObject d =>
      { fs with storeKeys := d :: fs.storeKeys }
  | CommitEvent.writeRecord i d => { fs with records := (i, d) :: fs.records }
  | CommitEvent.writeCurrent i => { fs with currentRef := some i }

/-- Replay a trace of commit writes. -/
def applyTrace (fs : RepoFs) (tr : List CommitEvent) : RepoFs :=
  tr.foldl applyEvent fs

/-- The crash-safety invariant: CURRENT, when present, names a snapshot
record that exists and whose referenced index object is in the store. -/
def GoodFs (fs : RepoFs) : Prop :=
  ∀ i, fs.currentRef = some i →
    ∃ d, (i, d) ∈ fs.records ∧ d ∈ fs.storeKeys

/-! ## Parent selection (src/commands/snapshot.c, find_latest_snapshot) -/

/-- A snapshot record as far as parent selection is concerned. -/
structure SnapRecord where
  id : List Nat
  timestamp : Int
deriving DecidableEq, Repr

/-- One iteration of find_latest_snapshot's readdir loop: keep a record
only when its timestamp strictly exceeds the best so far. -/
def latestStep (acc : Option (List Nat) × Int) (s : SnapRecord) :
    Option (List Nat) × Int :=
  if s.timestamp > acc.2 then (some s.id, s.timestamp) else acc

/-- find_latest_snapshot: fold over the records in directory order,
keeping the first record whose timestamp strictly exceeds every earlier
candidate (latest_timestamp starts at 0, so records with non-positive
timestamps are never selected). -/
def find_latest_snapshot (snaps : List SnapRecord) : Option (List Nat) :=
  (snaps.foldl latestStep ((none : Option (List Nat)), (0 : Int))).1

/-- The parent id cmd_snapshot stores in a new record: the result of
find_latest_snapshot over the branch's records.  The prior CURRENT id,
read earlier by get_current_snapshot_id, is not consulted for the parent
field. -/
def cmd_snapshot_parent (snaps : List SnapRecord)
    (_priorCurrent : Option (List Nat)) : Option (List Nat) :=
  find_latest_snapshot snaps

/-- What the specification prescribes for the parent field: the id that
CURRENT contained immediately before the commit. -/
def spec_snapshot_parent (_snaps : List SnapRecord)
    (priorCurrent : Option (List Nat)) : Option (List Nat) :=
  priorCurrent

/-! ## Resolver (src/utils/snapshots.c)

resolve_snapshot_id dispatches on the input: a leading dash goes to the
relative resolver, a full-id shape is accepted verbatim, anything else is
treated as a hex prefix over the branch's record files.  The record
directory is embedded as the list of snapshot ids (each stored as
id.json); resolve_snapshot_prefix skips names whose extracted id has 64
or more bytes and names starting with a dot, and stops collecting at 256
matches. -/

/-- The dash byte 0x2d. -/
def dashByte : Nat := 45

/-- The dot byte 0x2e. -/
def dotByte : Nat := 46

/-- A hex digit or dash, as is_full_snapshot_id accepts. -/
def isHexOrDashByte (c : Nat) : Bool :=
  (48 ≤ c && c ≤ 57) || (97 ≤ c && c ≤ 102) || (65 ≤ c && c ≤ 70) || c == 45

/-- is_full_snapshot_id: 64 bytes or 36 bytes, all hex digits or
dashes. -/
def is_full_snapshot_id (input : List Nat) : Bool :=
  (input.length == 64 || input.length == 36) &&
    input.all isHexOrDashByte

/-- A directory entry the prefix scan considers: not hidden and with an
extracted id shorter than 64 bytes. -/
def validDirId (i : List Nat) : Bool :=
  !(i.headD 0 == dotByte) && i.length < 64

/-- The matches resolve_snapshot_prefix collects: ids the scan considers
that start with the query, capped at 256 by the collection loop. -/
def matchingIds (q : List Nat) (ids : List (List Nat)) :
    List (List Nat) :=
  (ids.filter fun i => validDirId i && q.isPrefixOf i).take 256

/-- resolve_snapshot_prefix (snapshots.c): a query shorter than 4 bytes
is FRACTYL_ERROR_GENERIC; no match is FRACTYL_ERROR_SNAPSHOT_NOT_FOUND; a
unique match resolves; several matches are FRACTYL_ERROR_GENERIC. -/
def resolveSnapshotPfx (q : List Nat) (ids : List (List Nat)) :
    Except FracError (List Nat) :=
  if q.length < 4 then Except.error FracError.generic
  else
    match matchingIds q ids with
    | [] => Except.error FracError.snapshotNotFound
    | [i] => Except.ok i
    | _ => Except.error FracError.generic

/-- resolve_snapshot_id: dispatch between the relative resolver (a
parameter here; the claim concerns only the other branches), verbatim
full ids, and prefix resolution. -/
def resolve_snapshot_id
    (relResolver : List Nat → Except FracError (List Nat))
    (input : List Nat) (ids : List (List Nat)) :
    Except FracError (List Nat) :=
  if input.headD 0 == dashByte then relResolver input
  else if is_full_snapshot_id input then Except.ok input
  else resolveSnapshotPfx input ids

/-! ## Claim theorems -/

/-- C6: binary_index_check_file returns the new classification exactly
when no cache entry exists for the path, unchanged exactly when an entry
exists whose mtime_sec, size, inode and mode all equal the corresponding
(width-cast) fields of the current stat, and changed in every remaining
case, namely when an entry exists and at least one of those four fields
differs. -/
theorem check_file_classification (idx : BinaryIndex) (path : List Nat)
    (st : StatBuf) :
    (binary_index_check_file idx path st = BinaryFileStatus.newFile ↔
      binary_index_find_entry idx path = none)
    ∧ (binary_index_check_file idx path st = BinaryFileStatus.unchanged ↔
      ∃ e, binary_index_find_entry idx path = some e ∧ statMatches e st)
    ∧ (binary_index_check_file idx path st = BinaryFileStatus.changed ↔
      ∃ e, binary_index_find_entry idx path = some e ∧
        ¬statMatches e st) := by
  unfold binary_index_check_file
  cases h : binary_index_find_entry idx path with
  | none => simp
  | some e =>
      by_cases hm : statMatches e st <;> simp [hm]

/-- C4: object_store_file computes the digest first; when the object
already exists it succeeds with that digest without touching the store;
a second put of byte-identical content returns the same digest and
leaves the store exactly as the first put left it; and a failing copy
removes the partial object file, leaving the store unchanged. -/
theorem put_file_idempotent (sha : List Nat → Digest) (s : ObjectStore)
    (content : List Nat) :
    (object_exists s (sha content) = true →
      ∀ w, object_store_file sha w s content = (Except.ok (sha content), s))
    ∧ object_store_file sha true
        (object_store_file sha true s content).2 content =
        (Except.ok (sha content),
          (object_store_file sha true s content).2)
    ∧ (object_exists s (sha content) = false →
        object_store_file sha false s content =
          (Except.error FracError.io, s)) := by
  refine ⟨fun hex w => ?_, ?_, fun hex => ?_⟩
  · unfold object_store_file
    simp [hex]
  · by_cases hex : object_exists s (sha content) = true
    · unfold object_store_file
      simp [hex]
    · have h2 : (object_store_file sha true s content).2 =
          ⟨(sha content, content) :: s.objects⟩ := by
        unfold object_store_file
        simp [eq_false_of_ne_true hex]
      rw [h2]
      have hex2 : object_exists ⟨(sha content, content) :: s.objects⟩
          (sha content) = true := by
        unfold object_exists
        simp [List.find?_cons]
      unfold object_store_file
      simp [hex2]
  · unfold object_store_file
    simp [hex]

/-- C4 witness: a concrete hash function, store and content exercising
all three branches of put_file_idempotent. -/
theorem put_file_idempotent_witness :
    (object_exists ⟨[(List.replicate 32 0, [1, 2])]⟩
        ((fun _ => List.replicate 32 0) [1, 2]) = true ∧
      ∀ w, object_store_file (fun _ => List.replicate 32 0) w
          ⟨[(List.replicate 32 0, [1, 2])]⟩ [1, 2] =
        (Except.ok (List.replicate 32 0),
          ⟨[(List.replicate 32 0, [1, 2])]⟩))
    ∧ (object_exists ⟨[]⟩ ((fun _ => List.replicate 32 0) [1, 2]) = false ∧
      object_store_file (fun _ => List.replicate 32 0) false ⟨[]⟩ [1, 2] =
        (Except.error FracError.io, ⟨[]⟩)) :=
  ⟨⟨by decide,
    (put_file_idempotent (fun _ => List.replicate 32 0)
      ⟨[(List.replicate 32 0, [1, 2])]⟩ [1, 2]).1 (by decide)⟩,
   ⟨by decide,
    (put_file_idempotent (fun _ => List.replicate 32 0) ⟨[]⟩ [1, 2]).2.2
      (by decide)⟩⟩

/-- C9 counterexample: with records abcd1111... and abcd2222..., the
too-short query ab and the ambiguous query abcd produce the identical
outcome FRACTYL_ERROR_GENERIC, so the TooShort and Ambiguous error kinds
are not distinguishable in the resolver's result, while a zero-match
query gets the distinct FRACTYL_ERROR_SNAPSHOT_NOT_FOUND. -/
theorem resolver_errors_counterexample :
    resolveSnapshotPfx [97, 98]
        [[97, 98, 99, 100, 49, 49, 49, 49],
          [97, 98, 99, 100, 50, 50, 50, 50]] =
      Except.error FracError.generic
    ∧ resolveSnapshotPfx [97, 98, 99, 100]
        [[97, 98, 99, 100, 49, 49, 49, 49],
          [97, 98, 99, 100, 50, 50, 50, 50]] =
      Except.error FracError.generic
    ∧ (matchingIds [97, 98, 99, 100]
        [[97, 98, 99, 100, 49, 49, 49, 49],
          [97, 98, 99, 100, 50, 50, 50, 50]]).length = 2
    ∧ resolveSnapshotPfx [102, 102, 102, 102]
        [[97, 98, 99, 100, 49, 49, 49, 49],
          [97, 98, 99, 100, 50, 50, 50, 50]] =
      Except.error FracError.snapshotNotFound := by
  refine ⟨rfl, rfl, by decide, rfl⟩

/-- C9 as amended: a reference that is neither the -N form nor the
full-id shape is resolved as a hex prefix; below 4 bytes it fails with
the generic code, a unique match resolves to the full id, no match fails
with FRACTYL_ERROR_SNAPSHOT_NOT_FOUND, and two or more matches fail with
the generic code again; the not-found outcome is distinguishable, but
the too-short and ambiguous outcomes are the same error code. -/
theorem resolver_case_analysis
    (relResolver : List Nat → Except FracError (List Nat))
    (input : List Nat) (ids : List (List Nat))
    (hdash : input.headD 0 ≠ dashByte)
    (hfull : is_full_snapshot_id input = false) :
    (input.length < 4 →
      resolve_snapshot_id relResolver input ids =
        Except.error FracError.generic)
    ∧ (4 ≤ input.length →
        (∀ u, matchingIds input ids = [u] →
          resolve_snapshot_id relResolver input ids = Except.ok u)
        ∧ (matchingIds input ids = [] →
          resolve_snapshot_id relResolver input ids =
            Except.error FracError.snapshotNotFound)
        ∧ (2 ≤ (matchingIds input ids).length →
          resolve_snapshot_id relResolver input ids =
            Except.error FracError.generic))
    ∧ (Except.error FracError.snapshotNotFound ≠
        (Except.error FracError.generic : Except FracError (List Nat))) := by
  have hd : (input.headD 0 == dashByte) = false :=
    beq_eq_false_iff_ne.mpr hdash
  refine ⟨fun hlt => ?_, fun hge => ⟨fun u hu => ?_, fun h0 => ?_,
    fun h2 => ?_⟩, by simp⟩
  · unfold resolve_snapshot_id resolveSnapshotPfx
    simp only [hd, Bool.false_eq_true, if_false, hfull]
    rw [if_pos hlt]
  · unfold resolve_snapshot_id resolveSnapshotPfx
    simp only [hd, Bool.false_eq_true, if_false, hfull, hu]
    rw [if_neg (by omega)]
  · unfold resolve_snapshot_id resolveSnapshotPfx
    simp only [hd, Bool.false_eq_true, if_false, hfull, h0]
    rw [if_neg (by omega)]
  · unfold resolve_snapshot_id resolveSnapshotPfx
    simp only [hd, Bool.false_eq_true, if_false, hfull]
    rw [if_neg (by omega)]
    match hm : matchingIds input ids with
    | [] => rw [hm] at h2; simp at h2
    | [u] => rw [hm] at h2; simp at h2
    | u :: v :: rest => rfl

/-- C9 witness: concrete inputs exercising the amended case analysis,
including the unique-match success. -/
theorem resolver_case_analysis_witness :
    (([97, 98, 99, 100, 49] : List Nat).headD 0 == dashByte) = false
    ∧ is_full_snapshot_id [97, 98, 99, 100, 49] = false
    ∧ resolve_snapshot_id (fun _ => Except.error FracError.generic)
        [97, 98, 99, 100, 49]
        [[97, 98, 99, 100, 49, 49, 49, 49],
          [97, 98, 99, 100, 50, 50, 50, 50]] =
      Except.ok [97, 98, 99, 100, 49, 49, 49, 49] :=
  ⟨by decide, by decide,
    ((resolver_case_analysis (fun _ => Except.error FracError.generic)
        [97, 98, 99, 100, 49]
        [[97, 98, 99, 100, 49, 49, 49, 49],
          [97, 98, 99, 100, 50, 50, 50, 50]]
        (by decide) (by decide)).2.1 (by decide)).1
      [97, 98, 99, 100, 49, 49, 49, 49] (by decide)⟩

/-- Characterization of find_latest_snapshot's fold: the final best
timestamp dominates every record and the accumulator, and the fold
either returns the accumulator unchanged or selects a record whose
timestamp strictly exceeds the starting one. -/
theorem latestStep_foldl (snaps : List SnapRecord)
    (a : Option (List Nat)) (t : Int) :
    (∀ s ∈ snaps, s.timestamp ≤ (snaps.foldl latestStep (a, t)).2)
    ∧ t ≤ (snaps.foldl latestStep (a, t)).2
    ∧ (snaps.foldl latestStep (a, t) = (a, t)
      ∨ ∃ s ∈ snaps, (snaps.foldl latestStep (a, t)).1 = some s.id
          ∧ (snaps.foldl latestStep (a, t)).2 = s.timestamp
          ∧ t < s.timestamp) := by
  induction snaps generalizing a t with
  | nil => exact ⟨by simp, le_refl t, Or.inl rfl⟩
  | cons s ss ih =>
      simp only [List.foldl_cons]
      by_cases h : s.timestamp > t
      · have hs : latestStep (a, t) s = (some s.id, s.timestamp) := by
          unfold latestStep; rw [if_pos h]
        rw [hs]
        obtain ⟨ih1, ih2, ih3⟩ := ih (some s.id) s.timestamp
        refine ⟨?_, le_trans (le_of_lt h) ih2, ?_⟩
        · intro u hu
          rcases List.mem_cons.mp hu with rfl | hu2
          · exact ih2
          · exact ih1 u hu2
        · rcases ih3 with heq | ⟨u, hu, h1, h2, h3⟩
          · exact Or.inr ⟨s, List.mem_cons_self s ss,
              by rw [heq], by rw [heq], h⟩
          · exact Or.inr ⟨u, List.mem_cons_of_mem s hu, h1, h2,
              lt_trans h h3⟩
      · have hs : latestStep (a, t) s = (a, t) := by
          unfold latestStep; rw [if_neg h]
        rw [hs]
        obtain ⟨ih1, ih2, ih3⟩ := ih a t
        refine ⟨?_, ih2, ?_⟩
        · intro u hu
          rcases List.mem_cons.mp hu with rfl | hu2
          · exact le_trans (not_lt.mp h) ih2
          · exact ih1 u hu2
        · rcases ih3 with heq | ⟨u, hu, h1, h2, h3⟩
          · exact Or.inl heq
          · exact Or.inr ⟨u, List.mem_cons_of_mem s hu, h1, h2, h3⟩

/-- C8 counterexample: with records of timestamps 100 and 200 and the
prior CURRENT pointing at the older record (the user restored to it),
cmd_snapshot stores the newer record's id as the parent, not the prior
CURRENT as the claim states. -/
theorem parent_not_prior_current_counterexample :
    cmd_snapshot_parent [⟨[97], 100⟩, ⟨[98], 200⟩] (some [97]) = some [98]
    ∧ spec_snapshot_parent [⟨[97], 100⟩, ⟨[98], 200⟩] (some [97]) =
        some [97]
    ∧ decide (cmd_snapshot_parent [⟨[97], 100⟩, ⟨[98], 200⟩] (some [97]) =
        spec_snapshot_parent [⟨[97], 100⟩, ⟨[98], 200⟩] (some [97])) =
        false := by
  refine ⟨rfl, rfl, by decide⟩

/-- C8 as amended: the parent field of a new record is the id of the
first enumerated record carrying the maximal (positive) timestamp of the
branch, regardless of the prior CURRENT; when no record has a positive
timestamp, the parent is absent. -/
theorem parent_is_latest_by_timestamp (snaps : List SnapRecord)
    (cur : Option (List Nat)) :
    (∀ i, cmd_snapshot_parent snaps cur = some i →
      ∃ s ∈ snaps, s.id = i ∧ 0 < s.timestamp ∧
        ∀ u ∈ snaps, u.timestamp ≤ s.timestamp)
    ∧ (cmd_snapshot_parent snaps cur = none →
        ∀ s ∈ snaps, s.timestamp ≤ 0) := by
  obtain ⟨h1, _, h3⟩ := latestStep_foldl snaps none 0
  constructor
  · intro i hi
    unfold cmd_snapshot_parent find_latest_snapshot at hi
    rcases h3 with heq | ⟨s, hs, e1, e2, e3⟩
    · rw [heq] at hi
      cases hi
    · refine ⟨s, hs, ?_, e3, fun u hu => ?_⟩
      · rw [e1] at hi
        exact (Option.some.injEq _ _).mp hi
      · rw [← e2]
        exact h1 u hu
  · intro hn s hs
    unfold cmd_snapshot_parent find_latest_snapshot at hn
    rcases h3 with heq | ⟨u, _, e1, _, _⟩
    · have h2 : (snaps.foldl latestStep (none, 0)).2 = 0 := by
        rw [heq]
      have := h1 s hs
      rw [h2] at this
      exact this
    · rw [e1] at hn
      cases hn

/-- C8 witness: the amended statement evaluated on two concrete records,
yielding the maximal-timestamp record as parent. -/
theorem parent_is_latest_by_timestamp_witness :
    ∃ s ∈ [(⟨[97], 100⟩ : SnapRecord), ⟨[98], 200⟩], s.id = [98] ∧
      0 < s.timestamp ∧
      ∀ u ∈ [(⟨[97], 100⟩ : SnapRecord), ⟨[98], 200⟩],
        u.timestamp ≤ s.timestamp :=
  (parent_is_latest_by_timestamp [⟨[97], 100⟩, ⟨[98], 200⟩]
    (some [97])).1 [98] rfl

/-- C5: change monotonicity of the scanner.  In the stat-only strategy,
a file classified unchanged whose path is in the prior index has the
prior entry appended verbatim, so the digest carried in the new index is
byte-for-byte the prior digest; in the full-traversal strategy
(process_file), a file reported unchanged whose path is in the prior
index carries exactly the prior entry's digest. -/
theorem scan_change_monotonicity (sha : List Nat → Digest)
    (writeOk : Bool) (binIdx : BinaryIndex) (prevIndex : List IndexEntry)
    (relPath : List Nat) (st : StatBuf) (content : List Nat)
    (store : ObjectStore) :
    (binary_index_check_file binIdx relPath st =
        BinaryFileStatus.unchanged →
      ∀ pe, prevHashLookup prevIndex relPath = some pe →
        (stat_only_step sha writeOk binIdx prevIndex relPath (some st)
          true content store).1 = StatOnlyOutcome.appendedUnchanged pe)
    ∧ (∀ pe e ch, index_find_entry prevIndex relPath = some pe →
        (process_file sha writeOk prevIndex relPath st content
          store).1 = FileOutcome.added e ch →
        ch = false → e.hash = pe.hash) := by
  constructor
  · intro hu pe hpe
    unfold stat_only_step
    simp [hu, hpe]
  · intro pe e ch hpe hout hch
    unfold process_file at hout
    by_cases hbig : st.size > largeFileLimit
    · rw [if_pos hbig] at hout
      cases hout
    · rw [if_neg hbig] at hout
      rw [hpe] at hout
      dsimp only at hout
      by_cases hsm : pe.size = st.size ∧ pe.mtime = st.mtime
      · rw [if_pos hsm] at hout
        cases hout
        rfl
      · rw [if_neg hsm] at hout
        cases hsf : object_store_file sha writeOk store content with
        | mk r st2 =>
            cases r with
            | error er => rw [hsf] at hout; cases hout
            | ok d =>
                rw [hsf] at hout
                cases hout
                have : pe.hash = d := by
                  simpa using hch
                rw [this]

/-- C5 witness: a cache entry matching the current stat together with a
prior-index entry for the same path makes the stat-only step append the
prior entry verbatim. -/
theorem scan_change_monotonicity_witness :
    binary_index_check_file
        { binary_index_init [109] 0 with
            entries := [⟨1, 0, 0, 0, 2, 3, 0, 4, 0, 0,
              List.replicate 20 0, 1, 0⟩],
            paths := [some [97]] } [97] ⟨1, 2, 3, 4⟩ =
      BinaryFileStatus.unchanged
    ∧ prevHashLookup [⟨[97], List.replicate 32 9, 4, 2, 1⟩] [97] =
        some ⟨[97], List.replicate 32 9, 4, 2, 1⟩
    ∧ (stat_only_step (fun _ => List.replicate 32 0) true
        { binary_index_init [109] 0 with
            entries := [⟨1, 0, 0, 0, 2, 3, 0, 4, 0, 0,
              List.replicate 20 0, 1, 0⟩],
            paths := [some [97]] }
        [⟨[97], List.replicate 32 9, 4, 2, 1⟩] [97] (some ⟨1, 2, 3, 4⟩)
        true [7] ⟨[]⟩).1 =
      StatOnlyOutcome.appendedUnchanged ⟨[97], List.replicate 32 9, 4, 2, 1⟩ :=
  ⟨by decide, by decide,
    (scan_change_monotonicity (fun _ => List.replicate 32 0) true
      { binary_index_init [109] 0 with
          entries := [⟨1, 0, 0, 0, 2, 3, 0, 4, 0, 0,
            List.replicate 20 0, 1, 0⟩],
          paths := [some [97]] }
      [⟨[97], List.replicate 32 9, 4, 2, 1⟩] [97] ⟨1, 2, 3, 4⟩ [7]
      ⟨[]⟩).1 (by decide) ⟨[97], List.replicate 32 9, 4, 2, 1⟩
      (by decide)⟩

/-- C1: the failing input for the removal step of restore.  The working
tree holds an extra file (path byte 100, "d") that is not an entry of
the restored snapshot's index; after cmd_restore's entry loop — its
whole effect on working-tree files — the extra file still exists with
its old content, while the claim (and the repository's own integration
test test_snapshot_restoration, which asserts
TEST_ASSERT_FILE_NOT_EXISTS for exactly such a file) requires it to be
removed. -/
theorem restore_leaves_unindexed_file :
    (([⟨[97], List.replicate 32 1, 420, 2, 0⟩] : List IndexEntry).map
        IndexEntry.path).contains [100] = false
    ∧ cmd_restore_worktree ⟨[(List.replicate 32 1, [104, 105])]⟩
        [⟨[97], List.replicate 32 1, 420, 2, 0⟩]
        (fun p =>
          if p = [100] then some [120]
          else if p = [97] then some [121] else none)
        [100] = some [120] :=
  ⟨by decide, rfl⟩

/-- The store states reachable by the core operations: starting from the
empty store created by object_storage_init and applying any sequence of
put_file and put_data calls (the only core operations that write the
object store; nothing in the core modifies or deletes an object file). -/
inductive ReachableStore (sha : List Nat → Digest) : ObjectStore → Prop where
  | empty : ReachableStore sha ⟨[]⟩
  | step (s : ObjectStore) (op : StoreOp) :
      ReachableStore sha s → ReachableStore sha (applyStoreOp sha s op)

theorem applyStoreOp_preserves (sha : List Nat → Digest)
    (s : ObjectStore) (op : StoreOp) :
    (∀ p ∈ s.objects, p ∈ (applyStoreOp sha s op).objects)
    ∧ (∀ p ∈ (applyStoreOp sha s op).objects,
        p ∈ s.objects ∨ p.1 = sha p.2) := by
  cases op with
  | putFile c w =>
      unfold applyStoreOp object_store_file
      by_cases hex : object_exists s (sha c) = true
      · simp only [hex, if_true]
        exact ⟨fun p hp => hp, fun p hp => Or.inl hp⟩
      · by_cases hw : w = true
        · subst hw
          simp only [eq_false_of_ne_true hex, Bool.false_eq_true,
            if_false, if_true]
          refine ⟨fun p hp => List.mem_cons_of_mem _ hp, fun p hp => ?_⟩
          rcases List.mem_cons.mp hp with rfl | hp2
          · exact Or.inr rfl
          · exact Or.inl hp2
        · have hw2 : w = false := by
            cases w
            · rfl
            · exact absurd rfl hw
          subst hw2
          simp only [eq_false_of_ne_true hex, Bool.false_eq_true,
            if_false]
          exact ⟨fun p hp => hp, fun p hp => Or.inl hp⟩
  | putData c w =>
      unfold applyStoreOp object_store_data
      by_cases hex : object_exists s (sha c) = true
      · simp only [hex, if_true]
        exact ⟨fun p hp => hp, fun p hp => Or.inl hp⟩
      · by_cases hw : w = true
        · subst hw
          simp only [eq_false_of_ne_true hex, Bool.false_eq_true,
            if_false, if_true]
          refine ⟨fun p hp => List.mem_cons_of_mem _ hp, fun p hp => ?_⟩
          rcases List.mem_cons.mp hp with rfl | hp2
          · exact Or.inr rfl
          · exact Or.inl hp2
        · have hw2 : w = false := by
            cases w
            · rfl
            · exact absurd rfl hw
          subst hw2
          simp only [eq_false_of_ne_true hex, Bool.false_eq_true,
            if_false]
          exact ⟨fun p hp => hp, fun p hp => Or.inl hp⟩

/-- C3: in every store state reachable by the core operations, each
stored object's bytes hash to the key under which it is stored, and the
object file's path appends to fractyl_dir the fan-out
objects/XX/remaining where XX followed by the remainder is the 64-byte
lowercase hex form of the SHA-256 of the object's content.  The
hypothesis on sha records that SHA-256 digests are 32 bytes. -/
theorem store_content_addressed (sha : List Nat → Digest)
    (hsha : ∀ b, (sha b).length = 32) (s : ObjectStore)
    (hreach : ReachableStore sha s) (fractylDir : List Nat) :
    ∀ p ∈ s.objects,
      sha p.2 = p.1
      ∧ hash_to_object_path fractylDir p.1 =
          fractylDir ++ objectsSegment ++
            (hash_to_string (sha p.2)).take 2 ++ [slashByte] ++
            (hash_to_string (sha p.2)).drop 2
      ∧ (hash_to_string (sha p.2)).length = 64
      ∧ ∀ c ∈ hash_to_string (sha p.2), isLowerHexByte c := by
  have hca : ∀ p ∈ s.objects, sha p.2 = p.1 := by
    induction hreach with
    | empty => intro p hp; cases hp
    | step s0 op _ ih =>
        intro p hp
        rcases (applyStoreOp_preserves sha s0 op).2 p hp with hold | hnew
        · exact ih p hold
        · exact hnew.symm
  intro p hp
  refine ⟨hca p hp, ?_, hash_to_string_length _ (hsha p.2),
    hash_to_string_lower _⟩
  rw [hca p hp]
  rfl

/-- C3 witness: the invariant evaluated on the store reached by one
put_file of the bytes 5, at the one stored object. -/
theorem store_content_addressed_witness :
    (fun _ : List Nat => List.replicate 32 0) [5] = List.replicate 32 0
    ∧ hash_to_object_path [46] (List.replicate 32 0) =
        [46] ++ objectsSegment ++
          (hash_to_string (List.replicate 32 0)).take 2 ++ [slashByte] ++
          (hash_to_string (List.replicate 32 0)).drop 2
    ∧ (hash_to_string (List.replicate 32 0)).length = 64
    ∧ isLowerHexByte 48 := by
  have h := store_content_addressed (fun _ => List.replicate 32 0)
    (fun _ => by simp)
    (applyStoreOp (fun _ => List.replicate 32 0) ⟨[]⟩
      (StoreOp.putFile [5] true))
    (ReachableStore.step ⟨[]⟩ (StoreOp.putFile [5] true)
      ReachableStore.empty) [46]
    (List.replicate 32 0, [5]) (by decide)
  exact ⟨h.1, h.2.1, h.2.2.1, h.2.2.2 48 (by decide)⟩

/-- C10: binary_index_load never fails on the file's content.  With a
successful fstat it succeeds on every on-disk state; a missing file, a
file shorter than the header, a wrong signature or version, and a file
truncated inside the fixed-size entry records all yield the freshly
initialized empty cache for the requested branch, whose check_file then
classifies every path as new.  The only modelled failure is a failing
fstat on an openable file (FRACTYL_ERROR_IO); out-of-memory and invalid
NULL arguments, the two remaining C failure modes, have no counterpart
in the pure embedding. -/
theorem binary_index_load_total (branch : List Nat) (now : Nat)
    (file : Option (List Nat)) :
    (∃ idx, binary_index_load branch now file true = Except.ok idx)
    ∧ (file = none →
        binary_index_load branch now file true =
          Except.ok (binary_index_init branch now))
    ∧ (∀ bs, file = some bs → bs.length < 40 →
        binary_index_load branch now file true =
          Except.ok (binary_index_init branch now))
    ∧ (∀ bs, file = some bs → 40 ≤ bs.length →
        ((parseBinHeader (bs.take 40)).signature ≠ binarySignature ∨
          (parseBinHeader (bs.take 40)).version ≠ binaryVersion) →
        binary_index_load branch now file true =
          Except.ok (binary_index_init branch now))
    ∧ (∀ bs, file = some bs → 40 ≤ bs.length →
        (parseBinHeader (bs.take 40)).signature = binarySignature →
        (parseBinHeader (bs.take 40)).version = binaryVersion →
        0 < (parseBinHeader (bs.take 40)).entryCount →
        (bs.drop 40).length < 72 * (parseBinHeader (bs.take 40)).entryCount →
        binary_index_load branch now file true =
          Except.ok (binary_index_init branch now))
    ∧ (file ≠ none →
        binary_index_load branch now file false =
          Except.error FracError.io)
    ∧ (∀ path st,
        binary_index_check_file (binary_index_init branch now) path st =
          BinaryFileStatus.newFile) := by
  refine ⟨?_, ?_, ?_, ?_, ?_, ?_, ?_⟩
  · cases file with
    | none => exact ⟨binary_index_init branch now, rfl⟩
    | some bs =>
        unfold binary_index_load
        simp only [Bool.not_true, Bool.false_eq_true, if_false]
        by_cases h1 : bs.length < 40
        · rw [if_pos h1]
          exact ⟨binary_index_init branch now, rfl⟩
        · rw [if_neg h1]
          by_cases h2 : (parseBinHeader (bs.take 40)).signature ≠
              binarySignature ∨
              (parseBinHeader (bs.take 40)).version ≠ binaryVersion
          · rw [if_pos h2]
            exact ⟨binary_index_init branch now, rfl⟩
          · rw [if_neg h2]
            by_cases h3 : (parseBinHeader (bs.take 40)).entryCount = 0
            · rw [if_pos h3]
              exact ⟨_, rfl⟩
            · rw [if_neg h3]
              by_cases h4 : (bs.drop 40).length <
                  72 * (parseBinHeader (bs.take 40)).entryCount
              · rw [if_pos h4]
                exact ⟨binary_index_init branch now, rfl⟩
              · rw [if_neg h4]
                exact ⟨_, rfl⟩
  · intro h
    subst h
    rfl
  · intro bs h hlen
    subst h
    unfold binary_index_load
    simp [hlen]
  · intro bs h hlen hbad
    subst h
    unfold binary_index_load
    rcases hbad with hb | hb <;> simp [Nat.not_lt.mpr hlen, hb]
  · intro bs h hlen hsig hver hcnt htrunc
    subst h
    unfold binary_index_load
    simp only [List.length_drop] at htrunc
    simp [Nat.not_lt.mpr hlen, hsig, hver, Nat.pos_iff_ne_zero.mp hcnt]
    intro h
    omega
  · intro h
    cases file with
    | none => exact absurd rfl h
    | some bs => rfl
  · intro path st
    rfl

/-- C10 witness: a file bearing a wrong signature loads as the empty
cache for the branch. -/
theorem binary_index_load_total_witness :
    (some (List.replicate 48 7) : Option (List Nat)) =
      some (List.replicate 48 7)
    ∧ 40 ≤ (List.replicate 48 7 : List Nat).length
    ∧ ((parseBinHeader ((List.replicate 48 7 : List Nat).take 40)).signature ≠
        binarySignature ∨
      (parseBinHeader ((List.replicate 48 7 : List Nat).take 40)).version ≠
        binaryVersion)
    ∧ binary_index_load [109] 0 (some (List.replicate 48 7)) true =
        Except.ok (binary_index_init [109] 0) :=
  ⟨rfl, by decide, by decide,
    ((binary_index_load_total [109] 0 (some (List.replicate 48 7))).2.2.2.1
      (List.replicate 48 7) rfl (by decide) (by decide))⟩

/-- C7: the index codec round-trips on one host.  For an index whose
entries all have non-empty paths of at most 4096 bytes (with the digest
and the fixed-width integer fields in range) and with fewer than 2^32
entries, index_load of the bytes index_save wrote returns exactly the
original entry list: the same count and, position by position, the same
path, digest, mode, size and mtime. -/
theorem index_codec_roundtrip (es : List IndexEntry)
    (hwf : ∀ e ∈ es, wfEntry e) (hcnt : es.length < 2 ^ 32) :
    index_load (some (index_save es)) = Except.ok es := by
  unfold index_save index_load
  rw [List.append_assoc, List.append_assoc]
  have r1 := readBytes_append fidxMagic
    (toLE 4 1 ++ (toLE 4 es.length ++ (es.map serializeEntry).flatten))
  have lm : fidxMagic.length = 4 := rfl
  rw [lm] at r1
  have r2 := readBytes_append (toLE 4 1)
    (toLE 4 es.length ++ (es.map serializeEntry).flatten)
  rw [toLE_length] at r2
  have r3 := readBytes_append (toLE 4 es.length)
    ((es.map serializeEntry).flatten)
  rw [toLE_length] at r3
  have hv : fromLE (toLE 4 1) = 1 := by decide
  have hc : fromLE (toLE 4 es.length) = es.length := by
    rw [fromLE_toLE]
    exact Nat.mod_eq_of_lt (by norm_num at hcnt ⊢; omega)
  simp only [r1, r2, r3, hv, hc]
  rw [if_neg (by simp), if_neg (by simp)]
  by_cases h0 : es.length = 0
  · rw [if_pos h0]
    rw [List.length_eq_zero] at h0
    rw [h0]
  · rw [if_neg h0]
    have hp := parseIndexEntries_serialize es [] hwf
    rw [List.append_nil] at hp
    rw [hp]

/-- C7 witness: a concrete one-entry index round-trips. -/
theorem index_codec_roundtrip_witness :
    (∀ e ∈ [(⟨[97], List.replicate 32 7, 420, 5, 1000⟩ : IndexEntry)],
      wfEntry e)
    ∧ index_load (some (index_save
        [⟨[97], List.replicate 32 7, 420, 5, 1000⟩])) =
      Except.ok [⟨[97], List.replicate 32 7, 420, 5, 1000⟩] :=
  ⟨by decide,
    index_codec_roundtrip [⟨[97], List.replicate 32 7, 420, 5, 1000⟩]
      (by decide) (by decide)⟩

theorem applyTrace_putObjects (ds : List Digest) (fs : RepoFs) :
    (applyTrace fs (ds.map CommitEvent.putObject)).records = fs.records
    ∧ (applyTrace fs (ds.map CommitEvent.putObject)).currentRef =
        fs.currentRef
    ∧ ∀ d ∈ fs.storeKeys,
        d ∈ (applyTrace fs (ds.map CommitEvent.putObject)).storeKeys := by
  induction ds generalizing fs with
  | nil => exact ⟨rfl, rfl, fun d hd => hd⟩
  | cons x t ih =>
      simp only [List.map_cons, applyTrace, List.foldl_cons]
      obtain ⟨i1, i2, i3⟩ := ih ⟨x :: fs.storeKeys, fs.records, fs.currentRef⟩
      exact ⟨i1, i2, fun d hd => i3 d (List.mem_cons_of_mem x hd)⟩

theorem goodFs_extend (fs fs2 : RepoFs)
    (hrec : ∀ r ∈ fs.records, r ∈ fs2.records)
    (hkeys : ∀ d ∈ fs.storeKeys, d ∈ fs2.storeKeys)
    (hcur : fs2.currentRef = fs.currentRef)
    (h : GoodFs fs) : GoodFs fs2 := by
  intro i hi
  rw [hcur] at hi
  obtain ⟨d, hd1, hd2⟩ := h i hi
  exact ⟨d, hrec _ hd1, hkeys _ hd2⟩

/-- Every prefix of the full commit write trace preserves the
crash-safety invariant. -/
theorem full_trace_prefix_safe (scanPuts : List Digest) (d : Digest)
    (id : List Nat) (fs0 : RepoFs) (h0 : GoodFs fs0) (m : Nat) :
    GoodFs (applyTrace fs0 ((fullCommitTrace scanPuts d id).take m)) := by
  unfold fullCommitTrace
  by_cases hm : m ≤ (scanPuts.map CommitEvent.putObject).length
  · rw [List.take_append_of_le_length hm, ← List.map_take]
    obtain ⟨i1, i2, i3⟩ := applyTrace_putObjects (scanPuts.take m) fs0
    exact goodFs_extend fs0 _ (by rw [i1]; exact fun r hr => hr) i3 i2 h0
  · push_neg at hm
    rw [List.take_append_eq_append_take,
      List.take_of_length_le (le_of_lt hm)]
    rw [applyTrace, List.foldl_append]
    obtain ⟨i1, i2, i3⟩ := applyTrace_putObjects scanPuts fs0
    set fs1 := applyTrace fs0 (scanPuts.map CommitEvent.putObject) with hfs1
    have h1 : GoodFs fs1 :=
      goodFs_extend fs0 fs1 (by rw [i1]; exact fun r hr => hr) i3 i2 h0
    rcases hm2 : m - (scanPuts.map CommitEvent.putObject).length with
      _ | _ | _ | _ | k
    · exact absurd hm2 (by omega)
    · exact h1
    · exact goodFs_extend fs1 _ (fun r hr => hr)
        (fun x hx => List.mem_cons_of_mem _ hx) rfl h1
    · exact goodFs_extend fs1 _ (fun r hr => List.mem_cons_of_mem _ hr)
        (fun x hx => List.mem_cons_of_mem _ hx) rfl h1
    · have ht : List.take (k + 1 + 1 + 1 + 1)
          [CommitEvent.writeLiveIndex, CommitEvent.putIndexObject d,
            CommitEvent.writeRecord id d, CommitEvent.writeCurrent id] =
          [CommitEvent.writeLiveIndex, CommitEvent.putIndexObject d,
            CommitEvent.writeRecord id d, CommitEvent.writeCurrent id] :=
        List.take_of_length_le (by simp)
      rw [ht]
      intro i hi
      simp only [List.foldl_cons, List.foldl_nil, applyEvent] at hi
      have hii : id = i := Option.some.inj hi
      subst hii
      refine ⟨d, ?_, ?_⟩ <;>
        simp [List.foldl_cons, List.foldl_nil, applyEvent]

/-- cmd_snapshot's write trace is always an initial segment of the full
commit trace: a failure or a crash at any step cuts the trace, never
reorders it. -/
theorem commit_trace_initial_segment (scanPuts : List Digest)
    (scanOk changes liveOk tempOk storeIndexOk recordOk currentOk : Bool)
    (d : Digest) (id : List Nat) :
    ∃ k, cmd_snapshot_trace scanPuts scanOk changes liveOk tempOk
        storeIndexOk recordOk currentOk d id =
      (fullCommitTrace scanPuts d id).take k := by
  have hfull : fullCommitTrace scanPuts d id =
      scanPuts.map CommitEvent.putObject ++
        [CommitEvent.writeLiveIndex, CommitEvent.putIndexObject d,
          CommitEvent.writeRecord id d, CommitEvent.writeCurrent id] := rfl
  have htake : ∀ k : Nat, (fullCommitTrace scanPuts d id).take
      ((scanPuts.map CommitEvent.putObject).length + k) =
      scanPuts.map CommitEvent.putObject ++
        ([CommitEvent.writeLiveIndex, CommitEvent.putIndexObject d,
          CommitEvent.writeRecord id d,
          CommitEvent.writeCurrent id].take k) := by
    intro k
    rw [hfull, List.take_append_eq_append_take,
      List.take_of_length_le (by omega), Nat.add_sub_cancel_left]
  have hbase : ∃ k, scanPuts.map CommitEvent.putObject =
      (fullCommitTrace scanPuts d id).take k :=
    ⟨(scanPuts.map CommitEvent.putObject).length + 0, by
      rw [htake 0]; simp⟩
  unfold cmd_snapshot_trace
  dsimp only
  split
  · exact hbase
  · split
    · exact hbase
    · split
      · exact hbase
      · split
        · exact ⟨(scanPuts.map CommitEvent.putObject).length + 1, by
            rw [htake 1]; rfl⟩
        · split
          · exact ⟨(scanPuts.map CommitEvent.putObject).length + 1, by
              rw [htake 1]; rfl⟩
          · split
            · exact ⟨(scanPuts.map CommitEvent.putObject).length + 2, by
                rw [htake 2]; rfl⟩
            · split
              · exact ⟨(scanPuts.map CommitEvent.putObject).length + 3, by
                  rw [htake 3]; rfl⟩
              · exact ⟨(scanPuts.map CommitEvent.putObject).length + 4, by
                  rw [htake 4, hfull]; rfl⟩

/-- C2: ordering of the durable writes within one snapshot commit.  The
write trace of cmd_snapshot is an initial segment of the full trace — so
every file-body object put comes before the index object put, which
comes before the snapshot record write, which comes before the CURRENT
rewrite — and replaying any prefix of the trace (a crash at any step)
from a state satisfying the invariant leaves CURRENT, when present,
naming a record that exists and whose index object exists in the
store. -/
theorem commit_write_ordering (scanPuts : List Digest)
    (scanOk changes liveOk tempOk storeIndexOk recordOk currentOk : Bool)
    (d : Digest) (id : List Nat) (fs0 : RepoFs) (h0 : GoodFs fs0) :
    (∃ k, cmd_snapshot_trace scanPuts scanOk changes liveOk tempOk
        storeIndexOk recordOk currentOk d id =
      (fullCommitTrace scanPuts d id).take k)
    ∧ ∀ n, GoodFs (applyTrace fs0 ((cmd_snapshot_trace scanPuts scanOk
        changes liveOk tempOk storeIndexOk recordOk currentOk d
        id).take n)) := by
  obtain ⟨k, hk⟩ := commit_trace_initial_segment scanPuts scanOk changes liveOk
    tempOk storeIndexOk recordOk currentOk d id
  refine ⟨⟨k, hk⟩, fun n => ?_⟩
  rw [hk, List.take_take]
  exact full_trace_prefix_safe scanPuts d id fs0 h0 (min n k)

/-- C2 witness: the invariant evaluated on a concrete commit from the
empty repository state, at a prefix cutting right after the record
write. -/
theorem commit_write_ordering_witness :
    GoodFs (⟨[], [], none⟩ : RepoFs)
    ∧ (∃ k, cmd_snapshot_trace [[3]] true true true true true true true
        (List.replicate 32 2) [105] =
      (fullCommitTrace [[3]] (List.replicate 32 2) [105]).take k)
    ∧ GoodFs (applyTrace ⟨[], [], none⟩ ((cmd_snapshot_trace [[3]] true
        true true true true true true (List.replicate 32 2)
        [105]).take 4)) := by
  have hg : GoodFs (⟨[], [], none⟩ : RepoFs) := fun i hi => by cases hi
  exact ⟨hg,
    (commit_write_ordering [[3]] true true true true true true true
      (List.replicate 32 2) [105] ⟨[], [], none⟩ hg).1,
    (commit_write_ordering [[3]] true true true true true true true
      (List.replicate 32 2) [105] ⟨[], [], none⟩ hg).2 4⟩

end Fractyl
